import Mathlib

/-!
# Verification of the option-pricing core of `option_trading_app1.py`

Shallow embedding of the pricing core of the repository: the
`black_scholes` function (lines 60-80), the module-level clamp of the
time-to-expiration (lines 149-151), the `np.linspace` sample grid and the
payoff computation (lines 160-164).

Modelling conventions:
* Machine floats are modelled by real numbers `ℝ`; `scipy.stats.norm.cdf`
  is the standard normal CDF `normCdf`.
* Two embeddings of `black_scholes` are given.  `black_scholes` is an
  engine-level model whose intermediate division and logarithm are routed
  through an error monad caught at the top (`none` standing for the NaN
  result); it agrees with the program on the valid domain S, K, sigma,
  T > 0 — where every operation takes its ordinary branch — and at the
  0/0 input of the domain-error scenario, where numpy produces NaN; its
  theorems only evaluate it there.  `black_scholes_float` is the faithful
  IEEE-754/numpy float64 semantics on the `PyFloat` domain (finite
  values, the two infinities, NaN), under which no operation raises:
  `np.log(0)` is negative infinity, dividing a nonzero value by zero
  gives a signed infinity, `0/0` and `np.log` of a negative number give
  NaN, and `norm.cdf` maps the infinities to 1 and 0.  It is the model
  used for the exception-propagation claim.
-/

namespace OptionApp

/-- The `option_type` argument of `black_scholes` (`'call'` or `'put'`). -/
inductive OptionType where
  | call
  | put
deriving DecidableEq, Repr

open MeasureTheory Set

/-- Standard normal cumulative distribution function, the model of
`scipy.stats.norm.cdf`. -/
noncomputable def normCdf (x : ℝ) : ℝ :=
  (∫ t in Set.Iic x, Real.exp (-(t ^ 2) / 2)) / Real.sqrt (2 * Real.pi)

/-- Division in the engine-level error model: a zero denominator is routed
to the error path.  In numpy float64 arithmetic only `0/0` yields NaN,
while `x/0` for nonzero `x` yields a signed infinity; the theorems below
only evaluate `pdiv` on nonzero denominators or at `0/0`, where this model
and the program agree.  The full float semantics is `pydiv`. -/
noncomputable def pdiv (a b : ℝ) : Except Unit ℝ :=
  if b = 0 then Except.error () else Except.ok (a / b)

/-- `np.log` in the engine-level error model, restricted to its positive
domain, other arguments routed to the error path.  In numpy, `np.log 0` is
negative infinity and `np.log` of a negative number is NaN; the theorems
below only evaluate `plog` on positive arguments, where this model and the
program agree.  The full float semantics is `pylog`. -/
noncomputable def plog (x : ℝ) : Except Unit ℝ :=
  if 0 < x then Except.ok (Real.log x) else Except.error ()

/-- The body of `black_scholes` (the `try` block, lines 71-77):
`d1 = (np.log(S / K) + (r + 0.5 * sigma ** 2) * T) / (sigma * np.sqrt(T))`,
`d2 = d1 - sigma * np.sqrt(T)`, then the call or put closed form. -/
noncomputable def black_scholes_body (S K T r sigma : ℝ) (ot : OptionType) :
    Except Unit ℝ :=
  match pdiv S K with
  | Except.error e => Except.error e
  | Except.ok q =>
    match plog q with
    | Except.error e => Except.error e
    | Except.ok lg =>
      match pdiv (lg + (r + 0.5 * sigma ^ 2) * T) (sigma * Real.sqrt T) with
      | Except.error e => Except.error e
      | Except.ok d1 =>
        let d2 := d1 - sigma * Real.sqrt T
        match ot with
        | OptionType.call =>
            Except.ok (S * normCdf d1 - K * Real.exp (-r * T) * normCdf d2)
        | OptionType.put =>
            Except.ok (K * Real.exp (-r * T) * normCdf (-d2) - S * normCdf (-d1))

/-- `black_scholes` (lines 60-80): the body under `try/except`; `none`
models the `np.nan` returned when the computation fails. -/
noncomputable def black_scholes (S K T r sigma : ℝ) (ot : OptionType) :
    Option ℝ :=
  match black_scholes_body S K T r sigma ot with
  | Except.ok v => some v
  | Except.error _ => none

/-- The `d1` intermediate of `black_scholes` as a total real function. -/
noncomputable def d1val (S K T r sigma : ℝ) : ℝ :=
  (Real.log (S / K) + (r + 0.5 * sigma ^ 2) * T) / (sigma * Real.sqrt T)

/-- The `d2` intermediate of `black_scholes` as a total real function. -/
noncomputable def d2val (S K T r sigma : ℝ) : ℝ :=
  d1val S K T r sigma - sigma * Real.sqrt T

/-- The call branch of `black_scholes` as a total real function. -/
noncomputable def callPrice (S K T r sigma : ℝ) : ℝ :=
  S * normCdf (d1val S K T r sigma)
    - K * Real.exp (-r * T) * normCdf (d2val S K T r sigma)

/-- The put branch of `black_scholes` as a total real function. -/
noncomputable def putPrice (S K T r sigma : ℝ) : ℝ :=
  K * Real.exp (-r * T) * normCdf (-d2val S K T r sigma)
    - S * normCdf (-d1val S K T r sigma)

/-- The module-level clamp (lines 149-151): `if T <= 0: T = 0.01`. -/
noncomputable def clampT (T : ℝ) : ℝ :=
  if T ≤ 0 then 0.01 else T

/-- The observed program's pricing path (lines 149-154): clamp the computed
time-to-expiration, then call `black_scholes`. -/
noncomputable def app_price (S K T r sigma : ℝ) (ot : OptionType) : Option ℝ :=
  black_scholes S K (clampT T) r sigma ot

/-- `np.linspace(low, high, n)` with inclusive endpoints; `n = 1` yields
the single point `[low]`, as numpy does. -/
noncomputable def linspace (low high : ℝ) (n : ℕ) : List ℝ :=
  if n = 1 then [low]
  else (List.range n).map fun i : ℕ =>
    low + (high - low) * (i : ℝ) / ((n : ℝ) - 1)

/-- The payoff at one sampled underlying price (lines 161-164):
`np.maximum(S - strike, 0) - bs_price` for a call,
`np.maximum(strike - S, 0) - bs_price` for a put. -/
noncomputable def payoffPoint (ot : OptionType) (Sp K price : ℝ) : ℝ :=
  match ot with
  | OptionType.call => max (Sp - K) 0 - price
  | OptionType.put => max (K - Sp) 0 - price

/-- The payoff curve (lines 160-164): the linspace sample grid paired with
the payoff at each sampled price. -/
noncomputable def payoff_curve (ot : OptionType) (K price low high : ℝ)
    (n : ℕ) : List (ℝ × ℝ) :=
  (linspace low high n).map fun s => (s, payoffPoint ot s K price)

/-! ## Basic evaluation lemmas -/

lemma black_scholes_body_valid (S K T r sigma : ℝ) (hS : 0 < S) (hK : 0 < K)
    (hT : 0 < T) (hsig : sigma ≠ 0) :
    black_scholes_body S K T r sigma OptionType.call
        = Except.ok (callPrice S K T r sigma)
      ∧ black_scholes_body S K T r sigma OptionType.put
        = Except.ok (putPrice S K T r sigma) := by
  have hq : (0 : ℝ) < S / K := div_pos hS hK
  have hden : sigma * Real.sqrt T ≠ 0 :=
    mul_ne_zero hsig (ne_of_gt (Real.sqrt_pos.mpr hT))
  have hKne : K ≠ 0 := ne_of_gt hK
  constructor <;>
    simp [black_scholes_body, pdiv, plog, hq, hden, hKne, callPrice, putPrice,
      d1val, d2val, if_pos, if_neg]

lemma black_scholes_valid (S K T r sigma : ℝ) (hS : 0 < S) (hK : 0 < K)
    (hT : 0 < T) (hsig : sigma ≠ 0) :
    black_scholes S K T r sigma OptionType.call
        = some (callPrice S K T r sigma)
      ∧ black_scholes S K T r sigma OptionType.put
        = some (putPrice S K T r sigma) := by
  obtain ⟨h1, h2⟩ := black_scholes_body_valid S K T r sigma hS hK hT hsig
  constructor <;> simp [black_scholes, h1, h2]

/-! ## C1: the closed-form value on the valid domain -/

/-- C1: for S > 0, K > 0, sigma > 0, T > 0, `black_scholes` returns the
closed-form Black-Scholes value: with d1 = (ln(S/K) + (r + sigma^2/2)T) /
(sigma sqrt T) and d2 = d1 - sigma sqrt T, it returns
S Φ(d1) - K e^(-rT) Φ(d2) for a call and
K e^(-rT) Φ(-d2) - S Φ(-d1) for a put. -/
theorem black_scholes_closed_form (S K T r sigma : ℝ) (hS : 0 < S)
    (hK : 0 < K) (hsig : 0 < sigma) (hT : 0 < T) :
    black_scholes S K T r sigma OptionType.call
        = some (S * normCdf (d1val S K T r sigma)
            - K * Real.exp (-r * T) * normCdf (d2val S K T r sigma))
      ∧ black_scholes S K T r sigma OptionType.put
        = some (K * Real.exp (-r * T) * normCdf (-d2val S K T r sigma)
            - S * normCdf (-d1val S K T r sigma)) :=
  black_scholes_valid S K T r sigma hS hK hT (ne_of_gt hsig)

/-- Witness for C1 at S = 100, K = 100, T = 1, r = 0.015, sigma = 0.2. -/
theorem black_scholes_closed_form_witness :
    black_scholes 100 100 1 0.015 0.2 OptionType.call
        = some (100 * normCdf (d1val 100 100 1 0.015 0.2)
            - 100 * Real.exp (-0.015 * 1) * normCdf (d2val 100 100 1 0.015 0.2))
      ∧ black_scholes 100 100 1 0.015 0.2 OptionType.put
        = some (100 * Real.exp (-0.015 * 1) * normCdf (-d2val 100 100 1 0.015 0.2)
            - 100 * normCdf (-d1val 100 100 1 0.015 0.2)) :=
  black_scholes_closed_form 100 100 1 0.015 0.2 (by norm_num) (by norm_num)
    (by norm_num) (by norm_num)

/-! ## C2: the code does not raise a typed domain error -/

/-- C2 (divergence witness): at the spec's domain-error scenario
S = 100, K = 100, T = 0, r = 0.015, sigma = 0.2 the code returns the NaN
result (`none`), and the module-level path substitutes T = 0.01 — there is
no `InvalidContractParameters` error anywhere in the program. -/
theorem black_scholes_T_zero_nan :
    black_scholes 100 100 0 0.015 0.2 OptionType.call = none
      ∧ black_scholes 100 100 0 0.015 0.2 OptionType.put = none
      ∧ clampT 0 = 0.01 := by
  refine ⟨?_, ?_, by simp [clampT]⟩ <;>
    simp [black_scholes, black_scholes_body, pdiv, plog, Real.sqrt_zero]

/-! ## C3: the observed clamp substitutes T = 0.01 -/

/-- C3: whenever the computed time-to-expiration is non-positive, the
observed program silently substitutes T = 0.01 before pricing, so the
reported price is the one computed at T = 0.01. -/
theorem clamp_substitutes (S K T r sigma : ℝ) (ot : OptionType)
    (hT : T ≤ 0) :
    app_price S K T r sigma ot = black_scholes S K 0.01 r sigma ot := by
  simp [app_price, clampT, hT]

/-- Witness for C3 at T = 0. -/
theorem clamp_substitutes_witness :
    (0 : ℝ) ≤ 0
      ∧ app_price 100 100 0 0.015 0.2 OptionType.call
        = black_scholes 100 100 0.01 0.015 0.2 OptionType.call :=
  ⟨le_refl 0, clamp_substitutes 100 100 0 0.015 0.2 OptionType.call (le_refl 0)⟩

/-! ## C5: the payoff formula -/

/-- C5: at a sampled underlying price S', the payoff computation yields
max(S' - K, 0) - p for a call and max(K - S', 0) - p for a put; in
particular with K = 100, p = 8.75 and S' = 150 the call profit is 41.25. -/
theorem payoff_profit_formula :
    (∀ Sp K p : ℝ,
        payoffPoint OptionType.call Sp K p = max (Sp - K) 0 - p
          ∧ payoffPoint OptionType.put Sp K p = max (K - Sp) 0 - p)
      ∧ payoffPoint OptionType.call 150 100 8.75 = 41.25 := by
  refine ⟨fun Sp K p => ⟨rfl, rfl⟩, ?_⟩
  have h : max (150 - 100 : ℝ) 0 = 50 := by norm_num
  simp only [payoffPoint]
  rw [h]
  norm_num

/-! ## C9: determinism -/

/-- C9: the pricing function is deterministic — two invocations with equal
inputs return equal results; it takes the time-to-expiration as an explicit
argument and reads no ambient state. -/
theorem black_scholes_deterministic (S K T r sigma S' K' T' r' sigma' : ℝ)
    (ot ot' : OptionType) (h1 : S = S') (h2 : K = K') (h3 : T = T')
    (h4 : r = r') (h5 : sigma = sigma') (h6 : ot = ot') :
    black_scholes S K T r sigma ot = black_scholes S' K' T' r' sigma' ot' := by
  subst h1; subst h2; subst h3; subst h4; subst h5; subst h6; rfl

/-- Witness for C9 at equal concrete inputs. -/
theorem black_scholes_deterministic_witness :
    black_scholes 100 100 1 0.015 0.2 OptionType.call
      = black_scholes 100 100 1 0.015 0.2 OptionType.call :=
  black_scholes_deterministic 100 100 1 0.015 0.2 100 100 1 0.015 0.2
    OptionType.call OptionType.call rfl rfl rfl rfl rfl rfl

/-! ## C10: the pricing function never propagates an exception

The faithful float semantics.  All operands of `black_scholes` are numpy
float64 values (`S` comes from `pandas`, `np.log` and `np.sqrt` return
numpy scalars), so no arithmetic operation in the body raises: division by
zero, the logarithm of zero and overflowing intermediates produce signed
infinities, `0/0` and the logarithm of a negative number produce NaN, and
`scipy.stats.norm.cdf` maps the infinities to 1 and 0.  `PyFloat` is that
value domain and the `py*` operations below are the numpy semantics of the
operations the body uses. -/

/-- A numpy float64 value: a finite real, one of the two infinities, or
NaN.  (Signed zero is identified with zero: the program's inputs are
ordinary reals and no operation below distinguishes the two zeros.) -/
inductive PyFloat where
  | num (x : ℝ)
  | pinf
  | ninf
  | nan

/-- numpy negation. -/
noncomputable def pyneg : PyFloat → PyFloat
  | PyFloat.num x => PyFloat.num (-x)
  | PyFloat.pinf => PyFloat.ninf
  | PyFloat.ninf => PyFloat.pinf
  | PyFloat.nan => PyFloat.nan

/-- numpy addition: NaN absorbs, opposite infinities give NaN, an infinity
otherwise dominates. -/
noncomputable def pyadd : PyFloat → PyFloat → PyFloat
  | PyFloat.nan, _ => PyFloat.nan
  | _, PyFloat.nan => PyFloat.nan
  | PyFloat.num a, PyFloat.num b => PyFloat.num (a + b)
  | PyFloat.pinf, PyFloat.ninf => PyFloat.nan
  | PyFloat.ninf, PyFloat.pinf => PyFloat.nan
  | PyFloat.pinf, _ => PyFloat.pinf
  | _, PyFloat.pinf => PyFloat.pinf
  | PyFloat.ninf, _ => PyFloat.ninf
  | _, PyFloat.ninf => PyFloat.ninf

/-- numpy subtraction. -/
noncomputable def pysub (a b : PyFloat) : PyFloat :=
  pyadd a (pyneg b)

/-- numpy multiplication: NaN absorbs, an infinity times zero is NaN,
otherwise signs combine. -/
noncomputable def pymul : PyFloat → PyFloat → PyFloat
  | PyFloat.nan, _ => PyFloat.nan
  | _, PyFloat.nan => PyFloat.nan
  | PyFloat.num a, PyFloat.num b => PyFloat.num (a * b)
  | PyFloat.num a, PyFloat.pinf =>
      if 0 < a then PyFloat.pinf else if a < 0 then PyFloat.ninf
      else PyFloat.nan
  | PyFloat.num a, PyFloat.ninf =>
      if 0 < a then PyFloat.ninf else if a < 0 then PyFloat.pinf
      else PyFloat.nan
  | PyFloat.pinf, PyFloat.num b =>
      if 0 < b then PyFloat.pinf else if b < 0 then PyFloat.ninf
      else PyFloat.nan
  | PyFloat.ninf, PyFloat.num b =>
      if 0 < b then PyFloat.ninf else if b < 0 then PyFloat.pinf
      else PyFloat.nan
  | PyFloat.pinf, PyFloat.pinf => PyFloat.pinf
  | PyFloat.pinf, PyFloat.ninf => PyFloat.ninf
  | PyFloat.ninf, PyFloat.pinf => PyFloat.ninf
  | PyFloat.ninf, PyFloat.ninf => PyFloat.pinf

/-- numpy division: `x/0` is a signed infinity for nonzero `x` and NaN for
`x = 0`; a finite value over an infinity is zero; infinity over infinity
is NaN.  (The program's zeros are unsigned, so division of an infinity by
zero keeps its sign.) -/
noncomputable def pydiv : PyFloat → PyFloat → PyFloat
  | PyFloat.nan, _ => PyFloat.nan
  | _, PyFloat.nan => PyFloat.nan
  | PyFloat.num a, PyFloat.num b =>
      if b = 0 then
        if 0 < a then PyFloat.pinf else if a < 0 then PyFloat.ninf
        else PyFloat.nan
      else PyFloat.num (a / b)
  | PyFloat.num _, PyFloat.pinf => PyFloat.num 0
  | PyFloat.num _, PyFloat.ninf => PyFloat.num 0
  | PyFloat.pinf, PyFloat.num b =>
      if 0 ≤ b then PyFloat.pinf else PyFloat.ninf
  | PyFloat.ninf, PyFloat.num b =>
      if 0 ≤ b then PyFloat.ninf else PyFloat.pinf
  | PyFloat.pinf, _ => PyFloat.nan
  | PyFloat.ninf, _ => PyFloat.nan

/-- `np.log`: `log 0` is negative infinity, the logarithm of a negative
number is NaN. -/
noncomputable def pylog : PyFloat → PyFloat
  | PyFloat.num x =>
      if 0 < x then PyFloat.num (Real.log x)
      else if x = 0 then PyFloat.ninf else PyFloat.nan
  | PyFloat.pinf => PyFloat.pinf
  | PyFloat.ninf => PyFloat.nan
  | PyFloat.nan => PyFloat.nan

/-- `np.sqrt`: the square root of a negative number is NaN. -/
noncomputable def pysqrt : PyFloat → PyFloat
  | PyFloat.num x =>
      if 0 ≤ x then PyFloat.num (Real.sqrt x) else PyFloat.nan
  | PyFloat.pinf => PyFloat.pinf
  | PyFloat.ninf => PyFloat.nan
  | PyFloat.nan => PyFloat.nan

/-- `scipy.stats.norm.cdf`: finite on finite arguments, 1 at positive
infinity, 0 at negative infinity, NaN at NaN. -/
noncomputable def pycdf : PyFloat → PyFloat
  | PyFloat.num x => PyFloat.num (normCdf x)
  | PyFloat.pinf => PyFloat.num 1
  | PyFloat.ninf => PyFloat.num 0
  | PyFloat.nan => PyFloat.nan

/-- The `d1` intermediate of `black_scholes` under float semantics
(line 71).  `r`, `T` and `sigma` are user-entered Python floats, so
`(r + 0.5 * sigma ** 2) * T` is an ordinary finite real. -/
noncomputable def d1float (S K T r sigma : ℝ) : PyFloat :=
  pydiv
    (pyadd (pylog (pydiv (PyFloat.num S) (PyFloat.num K)))
      (PyFloat.num ((r + 0.5 * sigma ^ 2) * T)))
    (pymul (PyFloat.num sigma) (pysqrt (PyFloat.num T)))

/-- The `d2` intermediate under float semantics (line 72). -/
noncomputable def d2float (S K T r sigma : ℝ) : PyFloat :=
  pysub (d1float S K T r sigma)
    (pymul (PyFloat.num sigma) (pysqrt (PyFloat.num T)))

/-- `black_scholes` under the faithful float semantics (lines 70-80).
Every operation on float64 operands is total, so the `try` body always
returns and the `except` branch is unreachable: the function is its
body. -/
noncomputable def black_scholes_float (S K T r sigma : ℝ) (ot : OptionType) :
    PyFloat :=
  match ot with
  | OptionType.call =>
      pysub (pymul (PyFloat.num S) (pycdf (d1float S K T r sigma)))
        (pymul (pymul (PyFloat.num K) (PyFloat.num (Real.exp (-r * T))))
          (pycdf (d2float S K T r sigma)))
  | OptionType.put =>
      pysub
        (pymul (pymul (PyFloat.num K) (PyFloat.num (Real.exp (-r * T))))
          (pycdf (pyneg (d2float S K T r sigma))))
        (pymul (PyFloat.num S) (pycdf (pyneg (d1float S K T r sigma))))

lemma pycdf_num_or_nan (v : PyFloat) :
    (∃ c : ℝ, pycdf v = PyFloat.num c) ∨ pycdf v = PyFloat.nan := by
  cases v with
  | num x => exact Or.inl ⟨normCdf x, rfl⟩
  | pinf => exact Or.inl ⟨1, rfl⟩
  | ninf => exact Or.inl ⟨0, rfl⟩
  | nan => exact Or.inr rfl

lemma pymul_num_left (a : ℝ) {c : PyFloat}
    (h : (∃ x : ℝ, c = PyFloat.num x) ∨ c = PyFloat.nan) :
    (∃ v : ℝ, pymul (PyFloat.num a) c = PyFloat.num v)
      ∨ pymul (PyFloat.num a) c = PyFloat.nan := by
  rcases h with ⟨x, rfl⟩ | rfl
  · exact Or.inl ⟨a * x, rfl⟩
  · exact Or.inr rfl

lemma pysub_num_or_nan {u w : PyFloat}
    (hu : (∃ x : ℝ, u = PyFloat.num x) ∨ u = PyFloat.nan)
    (hw : (∃ x : ℝ, w = PyFloat.num x) ∨ w = PyFloat.nan) :
    (∃ v : ℝ, pysub u w = PyFloat.num v) ∨ pysub u w = PyFloat.nan := by
  rcases hu with ⟨x, rfl⟩ | rfl <;> rcases hw with ⟨y, rfl⟩ | rfl
  · exact Or.inl ⟨x + -y, rfl⟩
  · exact Or.inr rfl
  · exact Or.inr rfl
  · exact Or.inr rfl

/-- C10: under the faithful float semantics the pricing function never
propagates an exception: on every input it returns an ordinary numeric
value or NaN (never even an infinity, since `norm.cdf` maps infinite
arguments to 1 and 0).  In particular, at inputs where intermediates
overflow or fail: K = 0 prices the call at S; S = 0 prices the call at 0
and the put at K e^(-rT); T = 0 with S > K prices the call at S - K;
sigma = 0 at the money prices the call at S - K e^(-rT); and T = 0 at the
money (the 0/0 case) yields NaN. -/
theorem black_scholes_float_no_exception :
    (∀ (S K T r sigma : ℝ) (ot : OptionType),
        (∃ v : ℝ, black_scholes_float S K T r sigma ot = PyFloat.num v)
          ∨ black_scholes_float S K T r sigma ot = PyFloat.nan)
      ∧ black_scholes_float 100 0 1 0.015 0.2 OptionType.call
          = PyFloat.num 100
      ∧ black_scholes_float 0 100 1 0.015 0.2 OptionType.call
          = PyFloat.num 0
      ∧ black_scholes_float 0 100 1 0.015 0.2 OptionType.put
          = PyFloat.num (100 * Real.exp (-0.015))
      ∧ black_scholes_float 110 100 0 0.015 0.2 OptionType.call
          = PyFloat.num 10
      ∧ black_scholes_float 100 100 1 0.015 0 OptionType.call
          = PyFloat.num (100 - 100 * Real.exp (-0.015))
      ∧ black_scholes_float 100 100 0 0.015 0.2 OptionType.call
          = PyFloat.nan := by
  refine ⟨?_, ?_, ?_, ?_, ?_, ?_, ?_⟩
  · intro S K T r sigma ot
    have hKE : pymul (PyFloat.num K) (PyFloat.num (Real.exp (-r * T)))
        = PyFloat.num (K * Real.exp (-r * T)) := rfl
    cases ot with
    | call =>
        rw [black_scholes_float, hKE]
        exact pysub_num_or_nan (pymul_num_left S (pycdf_num_or_nan _))
          (pymul_num_left _ (pycdf_num_or_nan _))
    | put =>
        rw [black_scholes_float, hKE]
        exact pysub_num_or_nan (pymul_num_left _ (pycdf_num_or_nan _))
          (pymul_num_left S (pycdf_num_or_nan _))
  · norm_num [black_scholes_float, d1float, d2float, pydiv, pylog, pyadd,
      pymul, pysub, pyneg, pysqrt, pycdf, Real.sqrt_one]
  · norm_num [black_scholes_float, d1float, d2float, pydiv, pylog, pyadd,
      pymul, pysub, pyneg, pysqrt, pycdf, Real.sqrt_one]
  · norm_num [black_scholes_float, d1float, d2float, pydiv, pylog, pyadd,
      pymul, pysub, pyneg, pysqrt, pycdf, Real.sqrt_one]
  · have hlog : (0 : ℝ) < Real.log (11 / 10) :=
      Real.log_pos (by norm_num)
    norm_num [black_scholes_float, d1float, d2float, pydiv, pylog, pyadd,
      pymul, pysub, pyneg, pysqrt, pycdf, Real.sqrt_zero, Real.exp_zero,
      hlog]
  · norm_num [black_scholes_float, d1float, d2float, pydiv, pylog, pyadd,
      pymul, pysub, pyneg, pysqrt, pycdf, Real.sqrt_one, Real.log_one]
    ring
  · norm_num [black_scholes_float, d1float, d2float, pydiv, pylog, pyadd,
      pymul, pysub, pyneg, pysqrt, pycdf, Real.sqrt_zero, Real.log_one]

/-! ## C4: the sample grid -/

lemma payoff_curve_fst (ot : OptionType) (K p low high : ℝ) (n : ℕ) :
    (payoff_curve ot K p low high n).map Prod.fst = linspace low high n := by
  simp [payoff_curve, List.map_map, Function.comp_def]

lemma linspace_of_two_le (low high : ℝ) {n : ℕ} (hn : 2 ≤ n) :
    linspace low high n
      = (List.range n).map fun i : ℕ =>
          low + (high - low) * (i : ℝ) / ((n : ℝ) - 1) := by
  have h : n ≠ 1 := by omega
  rw [linspace, if_neg h]

lemma linspace_length (low high : ℝ) {n : ℕ} (hn : 2 ≤ n) :
    (linspace low high n).length = n := by
  rw [linspace_of_two_le low high hn]; simp

lemma linspace_getElem (low high : ℝ) {n : ℕ} (hn : 2 ≤ n) {i : ℕ}
    (hi : i < n) :
    (linspace low high n)[i]?
      = some (low + (high - low) * i / ((n : ℝ) - 1)) := by
  rw [linspace_of_two_le low high hn]
  rw [List.getElem?_map, List.getElem?_range hi]
  rfl

lemma grid_strict_mono (low high : ℝ) (h : low < high) {n : ℕ} (hn : 2 ≤ n)
    {i j : ℕ} (hij : i < j) :
    low + (high - low) * i / ((n : ℝ) - 1)
      < low + (high - low) * j / ((n : ℝ) - 1) := by
  have hd : (0 : ℝ) < (n : ℝ) - 1 := by
    have h2 : (2 : ℝ) ≤ (n : ℝ) := by exact_mod_cast hn
    linarith
  have hij' : (i : ℝ) < (j : ℝ) := by exact_mod_cast hij
  have hnum : (high - low) * i < (high - low) * j := by nlinarith
  have := (div_lt_div_iff_of_pos_right hd).mpr hnum
  linarith

/-- C4 (amended: sampleCount ≥ 2): for low < high, the payoff curve has
exactly sampleCount points, strictly ascending in underlying price, with
first price low and last price high, evenly spaced across [low, high] with
inclusive endpoints. -/
theorem payoff_curve_grid (ot : OptionType) (K p low high : ℝ) (n : ℕ)
    (hlh : low < high) (hn : 2 ≤ n) :
    (payoff_curve ot K p low high n).length = n
      ∧ ((payoff_curve ot K p low high n).map Prod.fst).Pairwise (· < ·)
      ∧ ((payoff_curve ot K p low high n).map Prod.fst).head? = some low
      ∧ ((payoff_curve ot K p low high n).map Prod.fst).getLast? = some high
      ∧ ∀ i : ℕ, i < n →
          ((payoff_curve ot K p low high n).map Prod.fst)[i]?
            = some (low + (high - low) * i / ((n : ℝ) - 1)) := by
  have hfst := payoff_curve_fst ot K p low high n
  have hlen : (linspace low high n).length = n := linspace_length low high hn
  have hd : ((n : ℝ) - 1) ≠ 0 := by
    have h2 : (2 : ℝ) ≤ (n : ℝ) := by exact_mod_cast hn
    intro h0; linarith
  refine ⟨?_, ?_, ?_, ?_, ?_⟩
  · have hl := congrArg List.length hfst
    simp only [List.length_map] at hl
    rw [← hl] at hlen
    simpa using hlen
  · rw [hfst, linspace_of_two_le low high hn]
    exact (List.pairwise_lt_range n).map _
      (fun i j hij => grid_strict_mono low high hlh hn hij)
  · rw [hfst, List.head?_eq_getElem? (linspace low high n),
      linspace_getElem low high hn (by omega : 0 < n)]
    norm_num
  · rw [hfst, List.getLast?_eq_getElem? (linspace low high n), hlen,
      linspace_getElem low high hn (by omega : n - 1 < n)]
    have hcast : ((n - 1 : ℕ) : ℝ) = (n : ℝ) - 1 := by
      rw [Nat.cast_sub (by omega : 1 ≤ n)]; norm_num
    rw [hcast, mul_div_assoc, div_self hd, mul_one]
    congr 1; ring
  · intro i hi
    rw [hfst]
    exact linspace_getElem low high hn hi

/-- Witness for C4's amended theorem at low = 50, high = 150,
sampleCount = 5. -/
theorem payoff_curve_grid_witness :
    (50 : ℝ) < 150 ∧ 2 ≤ 5
      ∧ ((payoff_curve OptionType.call 100 8.75 50 150 5).length = 5
        ∧ ((payoff_curve OptionType.call 100 8.75 50 150 5).map
            Prod.fst).Pairwise (· < ·)
        ∧ ((payoff_curve OptionType.call 100 8.75 50 150 5).map
            Prod.fst).head? = some 50
        ∧ ((payoff_curve OptionType.call 100 8.75 50 150 5).map
            Prod.fst).getLast? = some 150
        ∧ ∀ i : ℕ, i < 5 →
            ((payoff_curve OptionType.call 100 8.75 50 150 5).map
              Prod.fst)[i]?
              = some (50 + (150 - 50) * i / ((5 : ℝ) - 1))) :=
  ⟨by norm_num, by norm_num,
    payoff_curve_grid OptionType.call 100 8.75 50 150 5 (by norm_num)
      (by norm_num)⟩

/-- C4 counterexample: with low = 50 < high = 150 and the positive
sampleCount 1, the grid is the single point 50 (numpy's behavior), so the
last point's underlying price is 50, not high = 150. -/
theorem payoff_curve_single_sample :
    (payoff_curve OptionType.call 100 8.75 50 150 1).map Prod.fst = [50]
      ∧ ((payoff_curve OptionType.call 100 8.75 50 150 1).map
          Prod.fst).getLast? = some 50
      ∧ (50 : ℝ) ≠ 150 := by
  have h : (payoff_curve OptionType.call 100 8.75 50 150 1).map Prod.fst
      = linspace 50 150 1 := payoff_curve_fst _ _ _ _ _ _
  have h1 : linspace (50 : ℝ) 150 1 = [50] := by simp [linspace]
  exact ⟨by rw [h, h1], by rw [h, h1]; rfl, by norm_num⟩

/-! ## The standard normal CDF: basic facts -/

lemma gauss_integrable : Integrable (fun t : ℝ => Real.exp (-(t ^ 2) / 2)) := by
  have h := integrable_exp_neg_mul_sq (b := (1 : ℝ) / 2) (by norm_num)
  convert h using 2 with t
  ring_nf

lemma gauss_total :
    (∫ t : ℝ, Real.exp (-(t ^ 2) / 2)) = Real.sqrt (2 * Real.pi) := by
  have h := integral_gaussian (1 / 2 : ℝ)
  have h2 : (fun t : ℝ => Real.exp (-(t ^ 2) / 2))
      = fun t : ℝ => Real.exp (-(1 / 2 : ℝ) * t ^ 2) := by
    funext t; ring_nf
  rw [h2, h, show Real.pi / (1 / 2 : ℝ) = 2 * Real.pi by ring]

lemma normCdf_add_neg (x : ℝ) : normCdf x + normCdf (-x) = 1 := by
  have hint := gauss_integrable
  have hsym : (∫ t in Set.Iic (-x), Real.exp (-(t ^ 2) / 2))
      = ∫ t in Set.Ioi x, Real.exp (-(t ^ 2) / 2) := by
    have h1 : (∫ t in Set.Iic (-x), Real.exp (-(t ^ 2) / 2))
        = ∫ t in Set.Iic (-x), Real.exp (-((-t) ^ 2) / 2) := by
      congr 1; funext t; ring_nf
    rw [h1]
    have h2 := integral_comp_neg_Iic (-x) fun t => Real.exp (-(t ^ 2) / 2)
    rw [neg_neg] at h2
    exact h2
  have hsplit : (∫ t in Set.Iic x, Real.exp (-(t ^ 2) / 2))
      + (∫ t in Set.Ioi x, Real.exp (-(t ^ 2) / 2))
      = ∫ t : ℝ, Real.exp (-(t ^ 2) / 2) :=
    intervalIntegral.integral_Iic_add_Ioi hint.integrableOn hint.integrableOn
  have hpos : (0 : ℝ) < Real.sqrt (2 * Real.pi) :=
    Real.sqrt_pos.mpr (by positivity)
  rw [normCdf, normCdf, hsym, div_add_div_same, hsplit, gauss_total,
    div_self (ne_of_gt hpos)]

lemma normCdf_nonneg (x : ℝ) : 0 ≤ normCdf x := by
  apply div_nonneg _ (Real.sqrt_nonneg _)
  exact MeasureTheory.integral_nonneg fun t => (Real.exp_pos _).le

lemma normCdf_le_one (x : ℝ) : normCdf x ≤ 1 := by
  have h := normCdf_add_neg x
  have h2 := normCdf_nonneg (-x)
  linarith

/-! ## C6: put-call parity -/

/-- C6: for identical S > 0, K > 0, T > 0, r and sigma > 0, the call price
minus the put price equals S - K e^(-rT) (exactly, in real arithmetic). -/
theorem put_call_parity (S K T r sigma : ℝ) (hS : 0 < S) (hK : 0 < K)
    (hT : 0 < T) (hsig : 0 < sigma) :
    ∃ c p, black_scholes S K T r sigma OptionType.call = some c
      ∧ black_scholes S K T r sigma OptionType.put = some p
      ∧ c - p = S - K * Real.exp (-r * T) := by
  obtain ⟨hc, hp⟩ := black_scholes_valid S K T r sigma hS hK hT (ne_of_gt hsig)
  refine ⟨_, _, hc, hp, ?_⟩
  unfold callPrice putPrice
  linear_combination (S : ℝ) * normCdf_add_neg (d1val S K T r sigma)
    - (K * Real.exp (-r * T)) * normCdf_add_neg (d2val S K T r sigma)

/-- Witness for C6 at S = 100, K = 100, T = 1, r = 0.015, sigma = 0.2. -/
theorem put_call_parity_witness :
    ∃ c p, black_scholes 100 100 1 0.015 0.2 OptionType.call = some c
      ∧ black_scholes 100 100 1 0.015 0.2 OptionType.put = some p
      ∧ c - p = 100 - 100 * Real.exp (-0.015 * 1) :=
  put_call_parity 100 100 1 0.015 0.2 (by norm_num) (by norm_num)
    (by norm_num) (by norm_num)

/-! ## C8: the reference value at S = 100, K = 100, T = 1, r = 0.015,
sigma = 0.2 -/

lemma normCdf_zero : normCdf 0 = 1 / 2 := by
  have h := normCdf_add_neg 0
  rw [neg_zero] at h
  linarith

lemma normCdf_eq_half_add (x : ℝ) :
    normCdf x = 1 / 2
      + (∫ t in (0 : ℝ)..x, Real.exp (-(t ^ 2) / 2))
        / Real.sqrt (2 * Real.pi) := by
  have h := intervalIntegral.integral_Iic_sub_Iic
    (gauss_integrable.integrableOn (s := Set.Iic 0))
    (gauss_integrable.integrableOn (s := Set.Iic x))
  have key : (∫ t in Set.Iic x, Real.exp (-(t ^ 2) / 2))
      = (∫ t in Set.Iic (0 : ℝ), Real.exp (-(t ^ 2) / 2))
        + ∫ t in (0 : ℝ)..x, Real.exp (-(t ^ 2) / 2) := by linarith
  have h2 : normCdf 0 = (∫ t in Set.Iic (0 : ℝ), Real.exp (-(t ^ 2) / 2))
      / Real.sqrt (2 * Real.pi) := rfl
  rw [normCdf, key, add_div, ← h2, normCdf_zero]

lemma integral_poly_lower (a : ℝ) :
    ∫ t in (0 : ℝ)..a, (1 - t ^ 2 / 2) = a - a ^ 3 / 6 := by
  have h1 : IntervalIntegrable (fun _ : ℝ => (1 : ℝ)) volume 0 a :=
    intervalIntegrable_const
  have h2 : IntervalIntegrable (fun t : ℝ => t ^ 2 / 2) volume 0 a :=
    ((continuous_pow 2).div_const 2).intervalIntegrable 0 a
  rw [intervalIntegral.integral_sub h1 h2, intervalIntegral.integral_div,
    integral_pow, intervalIntegral.integral_const]
  norm_num
  ring

lemma integral_poly_upper (a : ℝ) :
    ∫ t in (0 : ℝ)..a, (1 - t ^ 2 / 2 + t ^ 4 / 8 + t ^ 6 / 36)
      = a - a ^ 3 / 6 + a ^ 5 / 40 + a ^ 7 / 252 := by
  have h1 : IntervalIntegrable (fun _ : ℝ => (1 : ℝ)) volume 0 a :=
    intervalIntegrable_const
  have h2 : IntervalIntegrable (fun t : ℝ => t ^ 2 / 2) volume 0 a :=
    ((continuous_pow 2).div_const 2).intervalIntegrable 0 a
  have h4 : IntervalIntegrable (fun t : ℝ => t ^ 4 / 8) volume 0 a :=
    ((continuous_pow 4).div_const 8).intervalIntegrable 0 a
  have h6 : IntervalIntegrable (fun t : ℝ => t ^ 6 / 36) volume 0 a :=
    ((continuous_pow 6).div_const 36).intervalIntegrable 0 a
  rw [intervalIntegral.integral_add ((h1.sub h2).add h4) h6,
    intervalIntegral.integral_add (h1.sub h2) h4,
    intervalIntegral.integral_sub h1 h2,
    intervalIntegral.integral_div, integral_pow,
    intervalIntegral.integral_div, integral_pow,
    intervalIntegral.integral_div, integral_pow,
    intervalIntegral.integral_const]
  norm_num
  ring

lemma gauss_continuous : Continuous fun t : ℝ => Real.exp (-(t ^ 2) / 2) :=
  Real.continuous_exp.comp ((continuous_pow 2).neg.div_const 2)

lemma int_gauss_lower (a : ℝ) (h0 : 0 ≤ a) :
    a - a ^ 3 / 6 ≤ ∫ t in (0 : ℝ)..a, Real.exp (-(t ^ 2) / 2) := by
  rw [← integral_poly_lower a]
  apply intervalIntegral.integral_mono_on h0
  · exact (continuous_const.sub
      ((continuous_pow 2).div_const 2)).intervalIntegrable 0 a
  · exact gauss_continuous.intervalIntegrable 0 a
  · intro t ht
    have := Real.add_one_le_exp (-(t ^ 2) / 2)
    linarith

lemma exp_neg_cubic_bound (u : ℝ) (h0 : 0 ≤ u) (h1 : u ≤ 1) :
    Real.exp (-u) ≤ 1 - u + u ^ 2 / 2 + 2 / 9 * u ^ 3 := by
  have habs : |(-u)| ≤ 1 := by rw [abs_neg, abs_of_nonneg h0]; exact h1
  have hb := Real.exp_bound habs (n := 3) (by norm_num)
  have hsum : (∑ i in Finset.range 3, (-u) ^ i / (Nat.factorial i : ℝ))
      = 1 - u + u ^ 2 / 2 := by
    simp [Finset.sum_range_succ, Nat.factorial]
    ring
  rw [hsum, abs_neg, abs_of_nonneg h0] at hb
  have h4 := (abs_le.mp hb).2
  norm_num [Nat.factorial] at h4
  nlinarith

lemma int_gauss_upper (a : ℝ) (h0 : 0 ≤ a) (h1 : a ≤ 1) :
    (∫ t in (0 : ℝ)..a, Real.exp (-(t ^ 2) / 2))
      ≤ a - a ^ 3 / 6 + a ^ 5 / 40 + a ^ 7 / 252 := by
  rw [← integral_poly_upper a]
  apply intervalIntegral.integral_mono_on h0
  · exact gauss_continuous.intervalIntegrable 0 a
  · exact (((continuous_const.sub ((continuous_pow 2).div_const 2)).add
      ((continuous_pow 4).div_const 8)).add
      ((continuous_pow 6).div_const 36)).intervalIntegrable 0 a
  · intro t ht
    obtain ⟨ht0, hta⟩ := ht
    have hu0 : 0 ≤ t ^ 2 / 2 := by positivity
    have hu1 : t ^ 2 / 2 ≤ 1 := by nlinarith
    have h := exp_neg_cubic_bound (t ^ 2 / 2) hu0 hu1
    have heq : -(t ^ 2) / 2 = -(t ^ 2 / 2) := by ring
    rw [heq]
    nlinarith

lemma sqrt_two_pi_lb : (2.5066 : ℝ) < Real.sqrt (2 * Real.pi) := by
  have hpi := Real.pi_gt_d6
  exact (Real.lt_sqrt (by norm_num)).mpr (by nlinarith)

lemma sqrt_two_pi_ub : Real.sqrt (2 * Real.pi) < 2.5067 := by
  have hpi := Real.pi_lt_d6
  exact (Real.sqrt_lt' (by norm_num)).mpr (by nlinarith)

lemma normCdf_decimal_bounds (a lo hi : ℝ) (h0 : 0 ≤ a) (h1 : a ≤ 1)
    (hlo : 0 ≤ lo) (hlo2 : lo * 2.5067 ≤ a - a ^ 3 / 6)
    (hhi : a - a ^ 3 / 6 + a ^ 5 / 40 + a ^ 7 / 252 ≤ hi * 2.5066) :
    1 / 2 + lo ≤ normCdf a ∧ normCdf a ≤ 1 / 2 + hi := by
  have hIl := int_gauss_lower a h0
  have hIu := int_gauss_upper a h0 h1
  have hs_l := sqrt_two_pi_lb
  have hs_u := sqrt_two_pi_ub
  have hspos : (0 : ℝ) < Real.sqrt (2 * Real.pi) := by linarith
  rw [normCdf_eq_half_add a]
  have hInn : 0 ≤ ∫ t in (0 : ℝ)..a, Real.exp (-(t ^ 2) / 2) := by
    nlinarith
  constructor
  · have : lo * Real.sqrt (2 * Real.pi)
        ≤ ∫ t in (0 : ℝ)..a, Real.exp (-(t ^ 2) / 2) := by nlinarith
    have := (le_div_iff₀ hspos).mpr this
    linarith
  · have : (∫ t in (0 : ℝ)..a, Real.exp (-(t ^ 2) / 2))
        ≤ hi * Real.sqrt (2 * Real.pi) := by nlinarith
    have := (div_le_iff₀ hspos).mpr this
    linarith

lemma phi175_bounds :
    (0.56945 : ℝ) ≤ normCdf 0.175 ∧ normCdf (0.175 : ℝ) ≤ 0.56947 := by
  have h := normCdf_decimal_bounds 0.175 0.06945 0.06947 (by norm_num)
    (by norm_num) (by norm_num) (by norm_num) (by norm_num)
  constructor <;> [linarith [h.1]; linarith [h.2]]

lemma phi025_bounds :
    (0.50997 : ℝ) ≤ normCdf 0.025 ∧ normCdf (0.025 : ℝ) ≤ 0.50998 := by
  have h := normCdf_decimal_bounds 0.025 0.00997 0.00998 (by norm_num)
    (by norm_num) (by norm_num) (by norm_num) (by norm_num)
  constructor <;> [linarith [h.1]; linarith [h.2]]

lemma exp_rate_bounds :
    (0.985 : ℝ) ≤ Real.exp (-0.015) ∧ Real.exp (-0.015 : ℝ) ≤ 0.985114 := by
  constructor
  · have := Real.add_one_le_exp (-0.015 : ℝ)
    linarith
  · have := exp_neg_cubic_bound 0.015 (by norm_num) (by norm_num)
    norm_num at this ⊢
    linarith

lemma d1_at_ref : d1val 100 100 1 0.015 0.2 = 0.175 := by
  rw [d1val]
  norm_num [Real.log_one, Real.sqrt_one]

lemma d2_at_ref : d2val 100 100 1 0.015 0.2 = -0.025 := by
  rw [d2val, d1_at_ref]
  norm_num [Real.sqrt_one]

lemma callPrice_at_ref_bounds :
    (8.671 : ℝ) ≤ callPrice 100 100 1 0.015 0.2
      ∧ callPrice 100 100 1 0.015 0.2 ≤ (8.681 : ℝ) := by
  have hP1 := phi175_bounds
  have hP2 := phi025_bounds
  have hE := exp_rate_bounds
  have hP2n : normCdf (-0.025 : ℝ) = 1 - normCdf 0.025 := by
    have := normCdf_add_neg (0.025 : ℝ)
    linarith
  have hcall : callPrice 100 100 1 0.015 0.2
      = 100 * normCdf 0.175 - 100 * Real.exp (-0.015) * normCdf (-0.025) := by
    rw [callPrice, d1_at_ref, d2_at_ref]
    norm_num
  rw [hcall, hP2n]
  constructor <;> nlinarith [hP1.1, hP1.2, hP2.1, hP2.2, hE.1, hE.2]

lemma putPrice_at_ref_bounds :
    (7.177 : ℝ) ≤ putPrice 100 100 1 0.015 0.2
      ∧ putPrice 100 100 1 0.015 0.2 ≤ (7.186 : ℝ) := by
  have hP1 := phi175_bounds
  have hP2 := phi025_bounds
  have hE := exp_rate_bounds
  have hP1n : normCdf (-0.175 : ℝ) = 1 - normCdf 0.175 := by
    have := normCdf_add_neg (0.175 : ℝ)
    linarith
  have hput : putPrice 100 100 1 0.015 0.2
      = 100 * Real.exp (-0.015) * normCdf 0.025 - 100 * normCdf (-0.175) := by
    rw [putPrice, d2_at_ref, d1_at_ref]
    norm_num
  rw [hput, hP1n]
  constructor <;> nlinarith [hP1.1, hP1.2, hP2.1, hP2.2, hE.1, hE.2]

/-- C8 counterexample: at S = 100, K = 100, T = 1, r = 0.015, sigma = 0.2
the code's call price is about 8.672 and its put price about 7.184; the
claimed 8.75 is off by more than the stated tolerance 0.05, and likewise
the claimed 7.26 for the put. -/
theorem black_scholes_ref_value_off :
    black_scholes 100 100 1 0.015 0.2 OptionType.call
        = some (callPrice 100 100 1 0.015 0.2)
      ∧ (0.05 : ℝ) < |callPrice 100 100 1 0.015 0.2 - 8.75|
      ∧ black_scholes 100 100 1 0.015 0.2 OptionType.put
        = some (putPrice 100 100 1 0.015 0.2)
      ∧ (0.05 : ℝ) < |putPrice 100 100 1 0.015 0.2 - 7.26| := by
  obtain ⟨hc, hp⟩ := black_scholes_valid 100 100 1 0.015 0.2 (by norm_num)
    (by norm_num) (by norm_num) (by norm_num)
  have hcb := callPrice_at_ref_bounds
  have hpb := putPrice_at_ref_bounds
  refine ⟨hc, ?_, hp, ?_⟩
  · have h1 : (0.05 : ℝ) < 8.75 - callPrice 100 100 1 0.015 0.2 := by
      linarith [hcb.2]
    rw [abs_sub_comm]
    exact lt_of_lt_of_le h1 (le_abs_self _)
  · have h1 : (0.05 : ℝ) < 7.26 - putPrice 100 100 1 0.015 0.2 := by
      linarith [hpb.2]
    rw [abs_sub_comm]
    exact lt_of_lt_of_le h1 (le_abs_self _)

/-- C8 (amended): at S = 100, K = 100, T = 1, r = 0.015, sigma = 0.2 the
pricing operation returns a call price of approximately 8.68 (within
tolerance 0.05) and a put price of approximately 7.18 (within
tolerance 0.05). -/
theorem black_scholes_ref_value :
    black_scholes 100 100 1 0.015 0.2 OptionType.call
        = some (callPrice 100 100 1 0.015 0.2)
      ∧ |callPrice 100 100 1 0.015 0.2 - 8.68| ≤ (0.05 : ℝ)
      ∧ black_scholes 100 100 1 0.015 0.2 OptionType.put
        = some (putPrice 100 100 1 0.015 0.2)
      ∧ |putPrice 100 100 1 0.015 0.2 - 7.18| ≤ (0.05 : ℝ) := by
  obtain ⟨hc, hp⟩ := black_scholes_valid 100 100 1 0.015 0.2 (by norm_num)
    (by norm_num) (by norm_num) (by norm_num)
  have hcb := callPrice_at_ref_bounds
  have hpb := putPrice_at_ref_bounds
  refine ⟨hc, ?_, hp, ?_⟩
  · rw [abs_le]
    constructor <;> linarith [hcb.1, hcb.2]
  · rw [abs_le]
    constructor <;> linarith [hpb.1, hpb.2]

/-! ## C7: monotonicity of the pricing operation -/

/-- Standard normal density, the derivative of `normCdf`. -/
noncomputable def gpdf (x : ℝ) : ℝ :=
  Real.exp (-(x ^ 2) / 2) / Real.sqrt (2 * Real.pi)

lemma gpdf_nonneg (x : ℝ) : 0 ≤ gpdf x :=
  div_nonneg (Real.exp_pos _).le (Real.sqrt_nonneg _)

lemma gpdf_neg (x : ℝ) : gpdf (-x) = gpdf x := by
  rw [gpdf, gpdf, neg_sq]

lemma hasDerivAt_normCdf (x : ℝ) : HasDerivAt normCdf (gpdf x) x := by
  have hF : HasDerivAt (fun u => ∫ t in (0 : ℝ)..u, Real.exp (-(t ^ 2) / 2))
      (Real.exp (-(x ^ 2) / 2)) x :=
    (gauss_continuous.integral_hasStrictDerivAt 0 x).hasDerivAt
  have heq : normCdf = fun u => 1 / 2
      + (∫ t in (0 : ℝ)..u, Real.exp (-(t ^ 2) / 2))
        / Real.sqrt (2 * Real.pi) :=
    funext normCdf_eq_half_add
  rw [heq, gpdf]
  exact (hF.div_const _).const_add _

lemma density_identity (S K T r sigma : ℝ) (hS : 0 < S) (hK : 0 < K)
    (hT : 0 < T) (hsig : sigma ≠ 0) :
    S * gpdf (d1val S K T r sigma)
      = K * Real.exp (-r * T) * gpdf (d2val S K T r sigma) := by
  have hst : sigma * Real.sqrt T ≠ 0 :=
    mul_ne_zero hsig (ne_of_gt (Real.sqrt_pos.mpr hT))
  have hd1 : d1val S K T r sigma * (sigma * Real.sqrt T)
      = Real.log (S / K) + (r + 0.5 * sigma ^ 2) * T := by
    rw [d1val]; field_simp
  have hu2 : (sigma * Real.sqrt T) ^ 2 = sigma ^ 2 * T := by
    rw [mul_pow, Real.sq_sqrt hT.le]
  have key : -(d2val S K T r sigma ^ 2) / 2
      = -(d1val S K T r sigma ^ 2) / 2 + (Real.log (S / K) + r * T) := by
    rw [d2val]
    linear_combination hd1 - (1 / 2) * hu2
  have hexp : Real.exp (-(d2val S K T r sigma ^ 2) / 2)
      = Real.exp (-(d1val S K T r sigma ^ 2) / 2) * (S / K)
        * Real.exp (r * T) := by
    rw [key, Real.exp_add, Real.exp_add, Real.exp_log (div_pos hS hK)]
    ring
  rw [gpdf, gpdf, hexp]
  have hrw : -r * T = -(r * T) := by ring
  rw [hrw, Real.exp_neg]
  field_simp
  ring

lemma hasDerivAt_d1val_spot (K T r sigma S : ℝ) (hS : 0 < S) (hK : 0 < K) :
    HasDerivAt (fun s => d1val s K T r sigma)
      (1 / S / (sigma * Real.sqrt T)) S := by
  have hlog : HasDerivAt (fun s : ℝ => Real.log (s / K)) (1 / S) S := by
    have hdiv : HasDerivAt (fun s : ℝ => s / K) (1 / K) S := by
      simpa using (hasDerivAt_id S).div_const K
    have hSK : S / K ≠ 0 := (div_pos hS hK).ne'
    have h := (Real.hasDerivAt_log hSK).comp S hdiv
    convert h using 1
    field_simp
  exact (hlog.add_const ((r + 0.5 * sigma ^ 2) * T)).div_const
    (sigma * Real.sqrt T)

lemma hasDerivAt_callPrice_spot (K T r sigma : ℝ) (hK : 0 < K) (hT : 0 < T)
    (hsig : 0 < sigma) (S : ℝ) (hS : 0 < S) :
    HasDerivAt (fun s => callPrice s K T r sigma)
      (normCdf (d1val S K T r sigma)) S := by
  set m := 1 / S / (sigma * Real.sqrt T) with hm
  have hd1 : HasDerivAt (fun s => d1val s K T r sigma) m S :=
    hasDerivAt_d1val_spot K T r sigma S hS hK
  have hd2 : HasDerivAt (fun s => d2val s K T r sigma) m S := by
    have h := hd1.sub_const (sigma * Real.sqrt T)
    simpa [d2val] using h
  have hP1 : HasDerivAt (fun s => normCdf (d1val s K T r sigma))
      (gpdf (d1val S K T r sigma) * m) S :=
    (hasDerivAt_normCdf _).comp S hd1
  have hP2 : HasDerivAt (fun s => normCdf (d2val s K T r sigma))
      (gpdf (d2val S K T r sigma) * m) S :=
    (hasDerivAt_normCdf _).comp S hd2
  have hf : HasDerivAt (fun s => s * normCdf (d1val s K T r sigma)
      - K * Real.exp (-r * T) * normCdf (d2val s K T r sigma))
      (1 * normCdf (d1val S K T r sigma)
        + S * (gpdf (d1val S K T r sigma) * m)
        - K * Real.exp (-r * T) * (gpdf (d2val S K T r sigma) * m)) S :=
    ((hasDerivAt_id S).mul hP1).sub (hP2.const_mul _)
  have hid := density_identity S K T r sigma hS hK hT (ne_of_gt hsig)
  have hfun : (fun s => callPrice s K T r sigma)
      = fun s => s * normCdf (d1val s K T r sigma)
        - K * Real.exp (-r * T) * normCdf (d2val s K T r sigma) := by
    funext s; rw [callPrice]
  rw [hfun]
  convert hf using 1
  linear_combination (-m) * hid

lemma hasDerivAt_callPrice_vol (S K T r : ℝ) (hS : 0 < S) (hK : 0 < K)
    (hT : 0 < T) (v : ℝ) (hv : 0 < v) :
    HasDerivAt (fun u => callPrice S K T r u)
      (S * gpdf (d1val S K T r v) * Real.sqrt T) v := by
  have hsq : (0 : ℝ) < Real.sqrt T := Real.sqrt_pos.mpr hT
  have hden : HasDerivAt (fun u : ℝ => u * Real.sqrt T) (Real.sqrt T) v :=
    hasDerivAt_mul_const _
  have hnum : HasDerivAt
      (fun u : ℝ => Real.log (S / K) + (r + 0.5 * u ^ 2) * T)
      ((0 + 0.5 * (2 * v ^ 1)) * T) v := by
    have hpow : HasDerivAt (fun u : ℝ => u ^ 2) (2 * v ^ 1) v := by
      simpa using hasDerivAt_pow 2 v
    exact (((hasDerivAt_const v r).add
      (hpow.const_mul 0.5)).mul_const T).const_add _
  obtain ⟨M, hd1⟩ : ∃ M, HasDerivAt (fun u => d1val S K T r u) M v := by
    have hne : v * Real.sqrt T ≠ 0 := by positivity
    have h := hnum.div hden hne
    have hfun : (fun u => d1val S K T r u)
        = fun u : ℝ => (Real.log (S / K) + (r + 0.5 * u ^ 2) * T)
          / (u * Real.sqrt T) := by
      funext u; rw [d1val]
    rw [hfun]
    exact ⟨_, h⟩
  have hd2 : HasDerivAt (fun u => d2val S K T r u) (M - Real.sqrt T) v := by
    have h := hd1.sub hden
    have hfun : (fun u => d2val S K T r u)
        = fun u => d1val S K T r u - u * Real.sqrt T := by
      funext u; rw [d2val]
    rw [hfun]
    exact h
  have hP1 : HasDerivAt (fun u => normCdf (d1val S K T r u))
      (gpdf (d1val S K T r v) * M) v :=
    (hasDerivAt_normCdf _).comp v hd1
  have hP2 : HasDerivAt (fun u => normCdf (d2val S K T r u))
      (gpdf (d2val S K T r v) * (M - Real.sqrt T)) v :=
    (hasDerivAt_normCdf _).comp v hd2
  have hf := (hP1.const_mul S).sub (hP2.const_mul (K * Real.exp (-r * T)))
  have hid := density_identity S K T r v hS hK hT (ne_of_gt hv)
  have hfun : (fun u => callPrice S K T r u)
      = fun u => S * normCdf (d1val S K T r u)
        - K * Real.exp (-r * T) * normCdf (d2val S K T r u) := by
    funext u; rw [callPrice]
  rw [hfun]
  convert hf using 1
  linear_combination (Real.sqrt T - M) * hid

lemma hasDerivAt_putPrice_strike (S T r sigma : ℝ) (hS : 0 < S) (hT : 0 < T)
    (hsig : 0 < sigma) (k : ℝ) (hk : 0 < k) :
    HasDerivAt (fun u => putPrice S u T r sigma)
      (Real.exp (-r * T) * normCdf (-d2val S k T r sigma)) k := by
  obtain ⟨M, hd1⟩ : ∃ M, HasDerivAt (fun u => d1val S u T r sigma) M k := by
    have hlog : HasDerivAt (fun u : ℝ => Real.log (S / u))
        ((S / k)⁻¹ * ((0 * k - S * 1) / k ^ 2)) k := by
      have hdiv : HasDerivAt (fun u : ℝ => S / u)
          ((0 * k - S * 1) / k ^ 2) k :=
        (hasDerivAt_const k S).div (hasDerivAt_id k) (ne_of_gt hk)
      exact (Real.hasDerivAt_log (div_pos hS hk).ne').comp k hdiv
    have h := (hlog.add_const ((r + 0.5 * sigma ^ 2) * T)).div_const
      (sigma * Real.sqrt T)
    have hfun : (fun u => d1val S u T r sigma)
        = fun u : ℝ => (Real.log (S / u) + (r + 0.5 * sigma ^ 2) * T)
          / (sigma * Real.sqrt T) := by
      funext u; rw [d1val]
    rw [hfun]
    exact ⟨_, h⟩
  have hd2 : HasDerivAt (fun u => d2val S u T r sigma) M k := by
    have h := hd1.sub_const (sigma * Real.sqrt T)
    have hfun : (fun u => d2val S u T r sigma)
        = fun u => d1val S u T r sigma - sigma * Real.sqrt T := by
      funext u; rw [d2val]
    rw [hfun]
    exact h
  have hP2 : HasDerivAt (fun u => normCdf (-d2val S u T r sigma))
      (gpdf (-d2val S k T r sigma) * (-M)) k :=
    (hasDerivAt_normCdf _).comp k hd2.neg
  have hP1 : HasDerivAt (fun u => normCdf (-d1val S u T r sigma))
      (gpdf (-d1val S k T r sigma) * (-M)) k :=
    (hasDerivAt_normCdf _).comp k hd1.neg
  have h1 : HasDerivAt (fun u : ℝ => u * Real.exp (-r * T))
      (Real.exp (-r * T)) k := hasDerivAt_mul_const _
  have hf := (h1.mul hP2).sub (hP1.const_mul S)
  have hid := density_identity S k T r sigma hS hk hT (ne_of_gt hsig)
  have hfun : (fun u => putPrice S u T r sigma)
      = fun u => u * Real.exp (-r * T) * normCdf (-d2val S u T r sigma)
        - S * normCdf (-d1val S u T r sigma) := by
    funext u; rw [putPrice]
  rw [hfun]
  convert hf using 1
  rw [gpdf_neg, gpdf_neg]
  linear_combination (-M) * hid

lemma hasDerivAt_putPrice_spot (K T r sigma : ℝ) (hK : 0 < K) (hT : 0 < T)
    (hsig : 0 < sigma) (S : ℝ) (hS : 0 < S) :
    HasDerivAt (fun s => putPrice s K T r sigma)
      (-normCdf (-d1val S K T r sigma)) S := by
  have hd1 : HasDerivAt (fun s => d1val s K T r sigma)
      (1 / S / (sigma * Real.sqrt T)) S :=
    hasDerivAt_d1val_spot K T r sigma S hS hK
  set m := 1 / S / (sigma * Real.sqrt T) with hm
  have hd2 : HasDerivAt (fun s => d2val s K T r sigma) m S := by
    have h := hd1.sub_const (sigma * Real.sqrt T)
    simpa [d2val] using h
  have hP2 : HasDerivAt (fun s => normCdf (-d2val s K T r sigma))
      (gpdf (-d2val S K T r sigma) * (-m)) S :=
    (hasDerivAt_normCdf _).comp S hd2.neg
  have hP1 : HasDerivAt (fun s => normCdf (-d1val s K T r sigma))
      (gpdf (-d1val S K T r sigma) * (-m)) S :=
    (hasDerivAt_normCdf _).comp S hd1.neg
  have hf := (hP2.const_mul (K * Real.exp (-r * T))).sub
    ((hasDerivAt_id S).mul hP1)
  have hid := density_identity S K T r sigma hS hK hT (ne_of_gt hsig)
  have hfun : (fun s => putPrice s K T r sigma)
      = fun s => K * Real.exp (-r * T) * normCdf (-d2val s K T r sigma)
        - s * normCdf (-d1val s K T r sigma) := by
    funext s; rw [putPrice]
  rw [hfun]
  convert hf using 1
  simp only [id_eq]
  rw [gpdf_neg, gpdf_neg]
  linear_combination (-m) * hid

lemma callPrice_monotoneOn_spot (K T r sigma : ℝ) (hK : 0 < K) (hT : 0 < T)
    (hsig : 0 < sigma) :
    MonotoneOn (fun s => callPrice s K T r sigma) (Set.Ioi 0) := by
  have hD : ∀ x ∈ interior (Set.Ioi (0 : ℝ)),
      HasDerivWithinAt (fun s => callPrice s K T r sigma)
        (normCdf (d1val x K T r sigma)) (interior (Set.Ioi (0 : ℝ))) x := by
    intro x hx
    rw [interior_Ioi] at hx
    exact (hasDerivAt_callPrice_spot K T r sigma hK hT hsig x
      hx).hasDerivWithinAt
  exact monotoneOn_of_hasDerivWithinAt_nonneg (convex_Ioi (0 : ℝ))
    (fun x hx => (hasDerivAt_callPrice_spot K T r sigma hK hT hsig x
      hx).continuousAt.continuousWithinAt)
    hD (fun x hx => normCdf_nonneg _)

lemma callPrice_monotoneOn_vol (S K T r : ℝ) (hS : 0 < S) (hK : 0 < K)
    (hT : 0 < T) :
    MonotoneOn (fun u => callPrice S K T r u) (Set.Ioi 0) := by
  have hD : ∀ x ∈ interior (Set.Ioi (0 : ℝ)),
      HasDerivWithinAt (fun u => callPrice S K T r u)
        (S * gpdf (d1val S K T r x) * Real.sqrt T)
        (interior (Set.Ioi (0 : ℝ))) x := by
    intro x hx
    rw [interior_Ioi] at hx
    exact (hasDerivAt_callPrice_vol S K T r hS hK hT x hx).hasDerivWithinAt
  exact monotoneOn_of_hasDerivWithinAt_nonneg (convex_Ioi (0 : ℝ))
    (fun x hx => (hasDerivAt_callPrice_vol S K T r hS hK hT x
      hx).continuousAt.continuousWithinAt)
    hD (fun x hx => mul_nonneg (mul_nonneg hS.le (gpdf_nonneg _))
      (Real.sqrt_nonneg _))

lemma putPrice_monotoneOn_strike (S T r sigma : ℝ) (hS : 0 < S) (hT : 0 < T)
    (hsig : 0 < sigma) :
    MonotoneOn (fun u => putPrice S u T r sigma) (Set.Ioi 0) := by
  have hD : ∀ x ∈ interior (Set.Ioi (0 : ℝ)),
      HasDerivWithinAt (fun u => putPrice S u T r sigma)
        (Real.exp (-r * T) * normCdf (-d2val S x T r sigma))
        (interior (Set.Ioi (0 : ℝ))) x := by
    intro x hx
    rw [interior_Ioi] at hx
    exact (hasDerivAt_putPrice_strike S T r sigma hS hT hsig x
      hx).hasDerivWithinAt
  exact monotoneOn_of_hasDerivWithinAt_nonneg (convex_Ioi (0 : ℝ))
    (fun x hx => (hasDerivAt_putPrice_strike S T r sigma hS hT hsig x
      hx).continuousAt.continuousWithinAt)
    hD (fun x hx => mul_nonneg (Real.exp_pos _).le (normCdf_nonneg _))

lemma putPrice_antitoneOn_spot (K T r sigma : ℝ) (hK : 0 < K) (hT : 0 < T)
    (hsig : 0 < sigma) :
    AntitoneOn (fun s => putPrice s K T r sigma) (Set.Ioi 0) := by
  have hD : ∀ x ∈ interior (Set.Ioi (0 : ℝ)),
      HasDerivWithinAt (fun s => putPrice s K T r sigma)
        (-normCdf (-d1val x K T r sigma)) (interior (Set.Ioi (0 : ℝ))) x := by
    intro x hx
    rw [interior_Ioi] at hx
    exact (hasDerivAt_putPrice_spot K T r sigma hK hT hsig x
      hx).hasDerivWithinAt
  exact antitoneOn_of_hasDerivWithinAt_nonpos (convex_Ioi (0 : ℝ))
    (fun x hx => (hasDerivAt_putPrice_spot K T r sigma hK hT hsig x
      hx).continuousAt.continuousWithinAt)
    hD (fun x hx => neg_nonpos.mpr (normCdf_nonneg _))

/-- C7: for valid inputs, the call price is non-decreasing in sigma and in
S, and the put price is non-decreasing in K and non-increasing in S, all
other parameters held fixed. -/
theorem black_scholes_monotonicity (S K T r sigma : ℝ) (hS : 0 < S)
    (hK : 0 < K) (hT : 0 < T) (hsig : 0 < sigma) :
    (∀ sigma' c c', sigma ≤ sigma' →
        black_scholes S K T r sigma OptionType.call = some c →
        black_scholes S K T r sigma' OptionType.call = some c' → c ≤ c')
      ∧ (∀ S' c c', S ≤ S' →
          black_scholes S K T r sigma OptionType.call = some c →
          black_scholes S' K T r sigma OptionType.call = some c' → c ≤ c')
      ∧ (∀ K' p p', K ≤ K' →
          black_scholes S K T r sigma OptionType.put = some p →
          black_scholes S K' T r sigma OptionType.put = some p' → p ≤ p')
      ∧ (∀ S' p p', S ≤ S' →
          black_scholes S K T r sigma OptionType.put = some p →
          black_scholes S' K T r sigma OptionType.put = some p' → p' ≤ p) := by
  refine ⟨?_, ?_, ?_, ?_⟩
  · intro sigma' c c' hle hc hc'
    have hsig' : 0 < sigma' := lt_of_lt_of_le hsig hle
    have h1 := (black_scholes_valid S K T r sigma hS hK hT (ne_of_gt hsig)).1
    have h2 := (black_scholes_valid S K T r sigma' hS hK hT
      (ne_of_gt hsig')).1
    have e1 : callPrice S K T r sigma = c :=
      Option.some.inj (h1.symm.trans hc)
    have e2 : callPrice S K T r sigma' = c' :=
      Option.some.inj (h2.symm.trans hc')
    rw [← e1, ← e2]
    exact callPrice_monotoneOn_vol S K T r hS hK hT (Set.mem_Ioi.mpr hsig)
      (Set.mem_Ioi.mpr hsig') hle
  · intro S' c c' hle hc hc'
    have hS' : 0 < S' := lt_of_lt_of_le hS hle
    have h1 := (black_scholes_valid S K T r sigma hS hK hT (ne_of_gt hsig)).1
    have h2 := (black_scholes_valid S' K T r sigma hS' hK hT
      (ne_of_gt hsig)).1
    have e1 : callPrice S K T r sigma = c :=
      Option.some.inj (h1.symm.trans hc)
    have e2 : callPrice S' K T r sigma = c' :=
      Option.some.inj (h2.symm.trans hc')
    rw [← e1, ← e2]
    exact callPrice_monotoneOn_spot K T r sigma hK hT hsig
      (Set.mem_Ioi.mpr hS) (Set.mem_Ioi.mpr hS') hle
  · intro K' p p' hle hp hp'
    have hK' : 0 < K' := lt_of_lt_of_le hK hle
    have h1 := (black_scholes_valid S K T r sigma hS hK hT (ne_of_gt hsig)).2
    have h2 := (black_scholes_valid S K' T r sigma hS hK' hT
      (ne_of_gt hsig)).2
    have e1 : putPrice S K T r sigma = p :=
      Option.some.inj (h1.symm.trans hp)
    have e2 : putPrice S K' T r sigma = p' :=
      Option.some.inj (h2.symm.trans hp')
    rw [← e1, ← e2]
    exact putPrice_monotoneOn_strike S T r sigma hS hT hsig
      (Set.mem_Ioi.mpr hK) (Set.mem_Ioi.mpr hK') hle
  · intro S' p p' hle hp hp'
    have hS' : 0 < S' := lt_of_lt_of_le hS hle
    have h1 := (black_scholes_valid S K T r sigma hS hK hT (ne_of_gt hsig)).2
    have h2 := (black_scholes_valid S' K T r sigma hS' hK hT
      (ne_of_gt hsig)).2
    have e1 : putPrice S K T r sigma = p :=
      Option.some.inj (h1.symm.trans hp)
    have e2 : putPrice S' K T r sigma = p' :=
      Option.some.inj (h2.symm.trans hp')
    rw [← e1, ← e2]
    exact putPrice_antitoneOn_spot K T r sigma hK hT hsig
      (Set.mem_Ioi.mpr hS) (Set.mem_Ioi.mpr hS') hle

/-- Witness for C7 at S = 100, K = 100, T = 1, r = 0.015, sigma = 0.2. -/
theorem black_scholes_monotonicity_witness :
    (∀ sigma' c c', (0.2 : ℝ) ≤ sigma' →
        black_scholes 100 100 1 0.015 0.2 OptionType.call = some c →
        black_scholes 100 100 1 0.015 sigma' OptionType.call = some c' →
        c ≤ c')
      ∧ (∀ S' c c', (100 : ℝ) ≤ S' →
          black_scholes 100 100 1 0.015 0.2 OptionType.call = some c →
          black_scholes S' 100 1 0.015 0.2 OptionType.call = some c' →
          c ≤ c')
      ∧ (∀ K' p p', (100 : ℝ) ≤ K' →
          black_scholes 100 100 1 0.015 0.2 OptionType.put = some p →
          black_scholes 100 K' 1 0.015 0.2 OptionType.put = some p' →
          p ≤ p')
      ∧ (∀ S' p p', (100 : ℝ) ≤ S' →
          black_scholes 100 100 1 0.015 0.2 OptionType.put = some p →
          black_scholes S' 100 1 0.015 0.2 OptionType.put = some p' →
          p' ≤ p) :=
  black_scholes_monotonicity 100 100 1 0.015 0.2 (by norm_num) (by norm_num)
    (by norm_num) (by norm_num)

end OptionApp
